import Mathlib

/-!
# Access-log middleware and logging adapter of `deep`

A shallow embedding of the two Go packages that carry the logic of the service:

* `internal/middleware/zap_logger.go`: the access-log middleware `ZapLogger`, the
  `NotFoundHandler`, the response capture `loggedResponseWriter` and the helpers
  `getRealClientIP`, `simplifyUA`, `colorStatus`, `colorMethod`;
* `internal/infra/logger/logger.go`: the encoders `customLevelEncoder`,
  `customEncodeCaller` and the field filter `joinMessageWithFields`.

Go strings are modelled by Lean strings (sequences of code points, which is what the
width of a `%s` directive counts); Go `int` values by `Int`.  Every `fmt.Sprintf` call
is transcribed directive by directive from its format literal, which is quoted next
to the transcription.
-/

namespace Go

/-! ## The fragments of the Go standard library the code calls -/

/-- Blanks that bring a text of `len` code points up to width `w` (none when it is
already that wide). -/
def padding (w len : Nat) : String :=
  String.mk (List.replicate (w - len) ' ')

/-- Directive `%-Ns` of package fmt: the operand, then blanks up to width `w`. -/
def fmtSLeft (w : Nat) (s : String) : String :=
  s ++ padding w s.length

/-- Directive `%d` of package fmt: decimal digits, with a minus sign when negative. -/
def fmtD : Int → String
  | Int.ofNat k => Nat.repr k
  | Int.negSucc k => "-" ++ Nat.repr (k + 1)

/-- Directive `%Nd` of package fmt: blanks up to width `w`, then the decimal form. -/
def fmtDRight (w : Nat) (n : Int) : String :=
  padding w (fmtD n).length ++ fmtD n

/-- Whether `sub` occurs in `s` as a contiguous run starting at some position. -/
def containsChars (sub : List Char) : List Char → Bool
  | [] => sub.isEmpty
  | c :: cs => sub.isPrefixOf (c :: cs) || containsChars sub cs

/-- Function `strings.Contains`. -/
def stringsContains (s substr : String) : Bool :=
  containsChars substr.data s.data

/-- Splitting of a character list at every occurrence of `sep`; the result always has
one more piece than there are separators. -/
def splitChars (sep : Char) : List Char → List (List Char)
  | [] => [[]]
  | c :: cs =>
    if c = sep then [] :: splitChars sep cs
    else
      match splitChars sep cs with
      | [] => [[c]]
      | p :: ps => (c :: p) :: ps

/-- Function `strings.Split` for a one-character separator. -/
def stringsSplit (s : String) (sep : Char) : List String :=
  (splitChars sep s.data).map String.mk

/-- Function `strings.Join`. -/
def stringsJoin : List String → String → String
  | [], _ => ""
  | [a], _ => a
  | a :: b :: rest, sep => a ++ sep ++ stringsJoin (b :: rest) sep

/-- Slice expression `xs[low:]`: `none` stands for the run-time panic
"slice bounds out of range" raised when `low` is negative or beyond the length. -/
def sliceFrom {α : Type} (xs : List α) (low : Int) : Option (List α) :=
  if low < 0 ∨ (xs.length : Int) < low then none else some (xs.drop low.toNat)

/-- Helper `fmtFrac` of package time: the last `prec` decimal digits of `v` as a
fraction, trailing zeros dropped, with the leading point; also returns `v / 10 ^ prec`. -/
def fmtFrac : Nat → Nat → Bool → List Char → List Char × Nat
  | 0, v, print, acc => (if print then '.' :: acc else acc, v)
  | i + 1, v, print, acc =>
    let digit := v % 10
    let print1 := print || digit != 0
    fmtFrac i (v / 10) print1 (if print1 then Nat.digitChar digit :: acc else acc)

/-- Method `time.Duration.String`, on a duration counted in nanoseconds. -/
def durationString (d : Int) : String :=
  let u := d.natAbs
  let sign := if d < 0 then "-" else ""
  if u < 1000000000 then
    if u = 0 then "0s"
    else if u < 1000 then sign ++ Nat.repr u ++ "ns"
    else if u < 1000000 then
      let r := fmtFrac 3 u false []
      sign ++ Nat.repr r.2 ++ String.mk r.1 ++ "µs"
    else
      let r := fmtFrac 6 u false []
      sign ++ Nat.repr r.2 ++ String.mk r.1 ++ "ms"
  else
    let r := fmtFrac 9 u false []
    let secs := Nat.repr (r.2 % 60) ++ String.mk r.1 ++ "s"
    let mins := r.2 / 60
    if mins = 0 then sign ++ secs
    else if mins / 60 = 0 then sign ++ Nat.repr (mins % 60) ++ "m" ++ secs
    else sign ++ Nat.repr (mins / 60) ++ "h" ++ Nat.repr (mins % 60) ++ "m" ++ secs

end Go

/-! ## Package `middleware` (`internal/middleware/zap_logger.go`) -/

namespace middleware

open Go

/-- The part of `http.Request` the package reads.  `Header` maps a header name to the
values recorded under it, an absent header to the empty list. -/
structure Request where
  Method : String
  Path : String
  Header : String → List String
  RemoteAddr : String

/-- Method `http.Header.Get`: the first value recorded under the name, `""` if none. -/
def Request.HeaderGet (r : Request) (key : String) : String :=
  match r.Header key with
  | [] => ""
  | v :: _ => v

/-- Method `http.Request.UserAgent`. -/
def Request.UserAgent (r : Request) : String :=
  r.HeaderGet "User-Agent"

/-- A call a handler makes on the `http.ResponseWriter` it is given. -/
inductive WriterCall where
  | WriteHeader (code : Int)
  | Write (body : String)
  deriving DecidableEq, Repr

/-- The response capture.  `ResponseWriter` is the embedded writer, modelled by the
calls that reached it; `status` is the captured code, zero in a fresh capture
(the composite literal in `ZapLogger` sets only the embedded writer). -/
structure loggedResponseWriter where
  ResponseWriter : List WriterCall
  status : Int
  deriving DecidableEq, Repr

/-- Method `WriteHeader` of the capture: stores the code, then forwards the call. -/
def loggedResponseWriter.WriteHeader (w : loggedResponseWriter) (code : Int) :
    loggedResponseWriter :=
  { status := code, ResponseWriter := w.ResponseWriter ++ [WriterCall.WriteHeader code] }

/-- Method `Write` of the capture.  The capture declares none, so the call is the
promoted method of the embedded writer: it is forwarded and `status` is untouched. -/
def loggedResponseWriter.Write (w : loggedResponseWriter) (body : String) :
    loggedResponseWriter :=
  { w with ResponseWriter := w.ResponseWriter ++ [WriterCall.Write body] }

/-- One call of the handler, dispatched on the capture. -/
def loggedResponseWriter.call (w : loggedResponseWriter) : WriterCall → loggedResponseWriter
  | WriterCall.WriteHeader code => w.WriteHeader code
  | WriterCall.Write body => w.Write body

/-- The calls of a handler, performed in order on the capture. -/
def loggedResponseWriter.run (w : loggedResponseWriter) (calls : List WriterCall) :
    loggedResponseWriter :=
  calls.foldl loggedResponseWriter.call w

/-- A wrapped handler: from the request it is given, the request as it leaves it (it
holds a pointer to it) and the calls it makes on its response writer, in order. -/
abbrev HandlerFunc := Request → Request × List WriterCall

/-- Function `getRealClientIP`. -/
def getRealClientIP (r : Request) : String :=
  if r.HeaderGet "X-Forwarded-For" ≠ "" then r.HeaderGet "X-Forwarded-For"
  else if r.HeaderGet "X-Real-IP" ≠ "" then r.HeaderGet "X-Real-IP"
  else r.RemoteAddr

/-- Specification of substring containment.  Text `sub` occurs in text `s`: `s` is some text, then `sub`, then some text. -/
def occursIn (sub s : String) : Prop :=
  ∃ before after : String, s = before ++ sub ++ after

/-- Function `simplifyUA`. -/
def simplifyUA (ua : String) : String :=
  if stringsContains ua "Chrome" then "Chrome"
  else if stringsContains ua "Firefox" then "Firefox"
  else if stringsContains ua "Safari" then "Safari"
  else "Other"

/-- Function `colorStatus`; each branch is `Sprintf("<colour>%3d\033[0m", status)`. -/
def colorStatus (status : Int) : String :=
  if status ≥ 200 ∧ status < 300 then "\x1b[32m" ++ fmtDRight 3 status ++ "\x1b[0m"
  else if status ≥ 300 ∧ status < 400 then "\x1b[36m" ++ fmtDRight 3 status ++ "\x1b[0m"
  else if status ≥ 400 ∧ status < 500 then "\x1b[33m" ++ fmtDRight 3 status ++ "\x1b[0m"
  else if status ≥ 500 then "\x1b[31m" ++ fmtDRight 3 status ++ "\x1b[0m"
  else "\x1b[37m" ++ fmtDRight 3 status ++ "\x1b[0m"

/-- Function `colorMethod`; the default branch is `Sprintf("\033[37m%s\033[0m", method)`. -/
def colorMethod (method : String) : String :=
  if method = "GET" then "\x1b[36mGET\x1b[0m"
  else if method = "POST" then "\x1b[34mPOST\x1b[0m"
  else if method = "PUT" then "\x1b[35mPUT\x1b[0m"
  else if method = "DELETE" then "\x1b[31mDELETE\x1b[0m"
  else "\x1b[37m" ++ method ++ "\x1b[0m"

/-- What one invocation leaves behind: the message handed to `logx.Info` and the calls
that reached the framework's response writer. -/
structure Outcome where
  logMsg : String
  response : List WriterCall
  deriving DecidableEq, Repr

/-- The handler returned by `ZapLogger()(next)`, run on request `r`; `cost` is the
value of `time.Since(start)` in nanoseconds.  The path and the client address are read
before `next` runs, the method and the user agent after it.  The message is
`Sprintf("| %s | %s | %-15s | %-20s | %-12s | %s", ...)`. -/
def ZapLogger (next : HandlerFunc) (r : Request) (cost : Int) : Outcome :=
  let path := r.Path
  let clientIP := getRealClientIP r
  let lrw : loggedResponseWriter := { ResponseWriter := [], status := 0 }
  let after := next r
  let lrw := lrw.run after.2
  let r := after.1
  let logMsg :=
    "| " ++ colorStatus lrw.status ++ " | " ++ colorMethod r.Method ++ " | " ++
      fmtSLeft 15 clientIP ++ " | " ++ fmtSLeft 20 path ++ " | " ++
      fmtSLeft 12 (durationString cost) ++ " | " ++ simplifyUA r.UserAgent
  { logMsg := logMsg, response := lrw.ResponseWriter }

/-- Constant `http.StatusNotFound`. -/
def StatusNotFound : Int := 404

/-- The handler returned by `NotFoundHandler()`, run on request `r`.  The message is
`Sprintf("| %s | %s | %-15s | %-20s | %-12s | %s", ...)` with the literal `"0s"` in
the duration column; `http.Error` then writes the status and the body. -/
def NotFoundHandler (r : Request) : Outcome :=
  let logMsg :=
    "| " ++ colorStatus StatusNotFound ++ " | " ++ colorMethod r.Method ++ " | " ++
      fmtSLeft 15 (getRealClientIP r) ++ " | " ++ fmtSLeft 20 r.Path ++ " | " ++
      fmtSLeft 12 "0s" ++ " | " ++ simplifyUA r.UserAgent
  { logMsg := logMsg,
    response := [WriterCall.WriteHeader StatusNotFound, WriterCall.Write "Not Found\n"] }

end middleware

/-! ## The fragment of `go.uber.org/zap/zapcore` the encoders call -/

namespace zapcore

/-- Type `zapcore.Level`, a signed integer. -/
abbrev Level := Int

/-- Constant `zapcore.DebugLevel`. -/
def DebugLevel : Level := -1
/-- Constant `zapcore.InfoLevel`. -/
def InfoLevel : Level := 0
/-- Constant `zapcore.WarnLevel`. -/
def WarnLevel : Level := 1
/-- Constant `zapcore.ErrorLevel`. -/
def ErrorLevel : Level := 2
/-- Constant `zapcore.DPanicLevel`. -/
def DPanicLevel : Level := 3
/-- Constant `zapcore.PanicLevel`. -/
def PanicLevel : Level := 4
/-- Constant `zapcore.FatalLevel`. -/
def FatalLevel : Level := 5

/-- Method `zapcore.Level.CapitalString`: the upper-case name of a named level, and
`Sprintf("LEVEL(%d)", l)` for any other value. -/
def CapitalString (l : Level) : String :=
  if l = DebugLevel then "DEBUG"
  else if l = InfoLevel then "INFO"
  else if l = WarnLevel then "WARN"
  else if l = ErrorLevel then "ERROR"
  else if l = DPanicLevel then "DPANIC"
  else if l = PanicLevel then "PANIC"
  else if l = FatalLevel then "FATAL"
  else "LEVEL(" ++ Go.fmtD l ++ ")"

end zapcore

/-! ## Package `logger` (`internal/infra/logger/logger.go`) -/

namespace logger

open Go

/-- Function `customLevelEncoder`; the result is the string handed to
`enc.AppendString`.  `levelString` is `Sprintf("%-5s", level.CapitalString())`. -/
def customLevelEncoder (level : zapcore.Level) : String :=
  let levelValue : Int := level
  let levelString := fmtSLeft 5 (zapcore.CapitalString level)
  let color :=
    if levelValue = zapcore.DebugLevel then "\x1b[34m"
    else if levelValue = zapcore.InfoLevel then "\x1b[32m"
    else if levelValue = zapcore.WarnLevel then "\x1b[33m"
    else if levelValue = zapcore.ErrorLevel then "\x1b[31m"
    else if levelValue = zapcore.FatalLevel then "\x1b[35m"
    else "\x1b[37m"
  color ++ levelString ++ "\x1b[0m"

/-- Function `customEncodeCaller`, on the fields `File` and `Line` of the
`zapcore.EntryCaller` it receives; the result is the string handed to
`enc.AppendString`, `none` when the slice expression panics.  `callerString` is
`Sprintf("%s:%d", fileName, caller.Line)`, the result `Sprintf("%-35s", callerString)`. -/
def customEncodeCaller (File : String) (Line : Int) : Option String :=
  let fileParts := stringsSplit File '/'
  match sliceFrom fileParts ((fileParts.length : Int) - 2) with
  | none => none
  | some lastTwo =>
    let fileName := stringsJoin lastTwo "/"
    let callerString := fileName ++ ":" ++ fmtD Line
    let callerStringWithWidth := fmtSLeft 35 callerString
    some callerStringWithWidth

/-- An operand of type `any`, by the way the directive `%s` of package fmt treats it:
`text` is an operand the directive prints as text (a `string`, a byte slice, and a
`Stringer` or an `error` through its method); `int` is a Go `int`, `bool` a Go `bool`,
`nil` the nil interface; `other` is any remaining operand, given by the name of its type
and by what the directive `%v` prints for it under the same flags. -/
inductive Value where
  | text (s : String)
  | int (n : Int)
  | bool (b : Bool)
  | nil
  | other (typeName shown : String)
  deriving DecidableEq, Repr

/-- Directive `%-Ns` of package fmt on an operand of type `any`.  Text is followed by
blanks up to width `w`.  Any other operand takes the bad-verb path, which writes `%!s(`,
the name of the type, `=`, the operand as `%v` prints it under the same flags (an
integer or a boolean followed by blanks up to width `w`), and `)`; for the nil
interface it writes `%!s(<nil>)`. -/
def fmtSLeftAny (w : Nat) : Value → String
  | Value.text s => fmtSLeft w s
  | Value.int n => "%!s(int=" ++ fmtSLeft w (fmtD n) ++ ")"
  | Value.bool b => "%!s(bool=" ++ fmtSLeft w (if b then "true" else "false") ++ ")"
  | Value.nil => "%!s(<nil>)"
  | Value.other typeName shown => "%!s(" ++ typeName ++ "=" ++ shown ++ ")"

/-- Type `logx.LogField`: a key and a value of type `any`. -/
structure LogField where
  Key : String
  Value : Value
  deriving DecidableEq, Repr

/-- Function `joinMessageWithFields`, on `msg = fmt.Sprint(v)`.  The loop appends
`Sprintf(" %-13s", field.Value)` for the keys of the switch. -/
def joinMessageWithFields (msg : String) (fields : List LogField) : String :=
  if fields.length = 0 then msg
  else
    fields.foldl
      (fun msg field =>
        if field.Key = "duration" ∨ field.Key = "trace" ∨ field.Key = "span" then
          msg ++ (" " ++ fmtSLeftAny 13 field.Value)
        else msg)
      msg

/-- The keys the switch of `joinMessageWithFields` retains. -/
def retained (f : LogField) : Bool :=
  decide (f.Key = "duration" ∨ f.Key = "trace" ∨ f.Key = "span")

end logger

/-! ## Properties of the library fragments -/

namespace Go

theorem length_padding (w len : Nat) : (padding w len).length = w - len := by
  simp [padding, String.length]

theorem length_fmtSLeft (w : Nat) (s : String) :
    (fmtSLeft w s).length = max w s.length := by
  simp [fmtSLeft, length_padding]
  omega

theorem fmtSLeft_of_le (w : Nat) (s : String) (h : w ≤ s.length) : fmtSLeft w s = s := by
  simp [fmtSLeft, padding, Nat.sub_eq_zero_of_le h]

theorem length_fmtDRight (w : Nat) (n : Int) :
    (fmtDRight w n).length = max w (fmtD n).length := by
  simp [fmtDRight, length_padding]
  omega

theorem containsChars_iff (sub s : List Char) :
    containsChars sub s = true ↔ sub <:+: s := by
  induction s with
  | nil => simp [containsChars, List.isEmpty_iff]
  | cons c cs ih =>
    simp only [containsChars, Bool.or_eq_true, ih, List.infix_cons_iff,
      List.isPrefixOf_iff_prefix]

theorem stringsContains_iff (s substr : String) :
    stringsContains s substr = true ↔ substr.data <:+: s.data :=
  containsChars_iff substr.data s.data

end Go

/-! ## Properties of package `middleware` -/

namespace middleware

open Go

theorem stringsContains_iff_occursIn (s sub : String) :
    stringsContains s sub = true ↔ occursIn sub s := by
  rw [stringsContains_iff]
  constructor
  · rintro ⟨a, b, h⟩
    refine ⟨String.mk a, String.mk b, ?_⟩
    apply String.ext
    simp [h]
  · rintro ⟨a, b, h⟩
    refine ⟨a.data, b.data, ?_⟩
    simp [h]

/-- A capture keeps its status through calls none of which is `WriteHeader`. -/
theorem run_status_of_no_WriteHeader (calls : List WriterCall) (w : loggedResponseWriter)
    (h : ∀ code, WriterCall.WriteHeader code ∉ calls) : (w.run calls).status = w.status := by
  induction calls generalizing w with
  | nil => rfl
  | cons c cs ih =>
    have hcs : ∀ code, WriterCall.WriteHeader code ∉ cs := fun code hmem =>
      h code (List.mem_cons_of_mem _ hmem)
    cases c with
    | WriteHeader code => exact absurd (List.mem_cons_self _ _) (h code)
    | Write body =>
      show ((w.Write body).run cs).status = w.status
      rw [ih _ hcs]
      rfl

/-- C1 (the code departs from the claim).  Whatever calls a handler makes, if none is
`WriteHeader` the fresh capture still holds status 0 when the handler returns; for a
handler that only writes a body the middleware formats that 0 (gray, `"  0"`), not 200. -/
theorem ZapLogger_body_only_logs_status_zero :
    (∀ calls : List WriterCall, (∀ code, WriterCall.WriteHeader code ∉ calls) →
      (loggedResponseWriter.run { ResponseWriter := [], status := 0 } calls).status = 0) ∧
    (loggedResponseWriter.run { ResponseWriter := [], status := 0 }
        [WriterCall.Write "ok"]).status = 0 ∧
    (ZapLogger (fun r => (r, [WriterCall.Write "ok"]))
        { Method := "GET", Path := "/ping", Header := fun _ => [], RemoteAddr := "10.0.0.5:443" }
        0).logMsg =
      "| \x1b[37m  0\x1b[0m | \x1b[36mGET\x1b[0m | 10.0.0.5:443    | /ping                | 0s           | Other" := by
  refine ⟨?_, ?_, ?_⟩
  · intro calls hcalls
    exact run_status_of_no_WriteHeader calls _ hcalls
  · decide
  · decide

/-- The capture holds the code of the latest `WriteHeader` call, whatever was called
before it and however many bodies are written after it. -/
theorem run_status_of_last_WriteHeader (w : loggedResponseWriter)
    (before after : List WriterCall) (code : Int)
    (hafter : ∀ c, WriterCall.WriteHeader c ∉ after) :
    (w.run (before ++ WriterCall.WriteHeader code :: after)).status = code := by
  have hsplit : w.run (before ++ WriterCall.WriteHeader code :: after) =
      (((w.run before).WriteHeader code).run after) := by
    simp [loggedResponseWriter.run, List.foldl_append, loggedResponseWriter.call]
  rw [hsplit, run_status_of_no_WriteHeader after _ hafter]
  rfl

/-- C2 (the code departs from the claim).  Every `WriteHeader` call overwrites the status
of the capture, so the capture holds the code of the latest call, whatever came before it
and whatever bodies are written after it.  After `WriteHeader(200)` then
`WriteHeader(500)` it holds 500, not the 200 of the first call, and the middleware logs
the red token `500`. -/
theorem WriteHeader_twice_logs_second_code :
    (∀ (w : loggedResponseWriter) (before after : List WriterCall) (code : Int),
      (∀ c, WriterCall.WriteHeader c ∉ after) →
      (w.run (before ++ WriterCall.WriteHeader code :: after)).status = code) ∧
    (loggedResponseWriter.run { ResponseWriter := [], status := 0 }
        [WriterCall.WriteHeader 200, WriterCall.WriteHeader 500]).status = 500 ∧
    (loggedResponseWriter.run { ResponseWriter := [], status := 0 }
        [WriterCall.WriteHeader 200, WriterCall.WriteHeader 500]).status ≠ 200 ∧
    (ZapLogger
        (fun r => (r, [WriterCall.WriteHeader 200, WriterCall.WriteHeader 500,
          WriterCall.Write "ok"]))
        { Method := "GET", Path := "/ping", Header := fun _ => [], RemoteAddr := "10.0.0.5:443" }
        0).logMsg =
      "| \x1b[31m500\x1b[0m | \x1b[36mGET\x1b[0m | 10.0.0.5:443    | /ping                | 0s           | Other" := by
  refine ⟨?_, ?_, ?_, ?_⟩
  · intro w before after code hafter
    exact run_status_of_last_WriteHeader w before after code hafter
  · decide
  · decide
  · decide

/-- C5.  `getRealClientIP` returns the first non-empty text among the `X-Forwarded-For`
header, the `X-Real-IP` header and `RemoteAddr`, in that order: a non-empty
`X-Forwarded-For` is returned verbatim whatever the other two hold, and when both headers
are absent or empty the result is `RemoteAddr` itself. -/
theorem getRealClientIP_priority (r : Request) :
    getRealClientIP r =
        (([r.HeaderGet "X-Forwarded-For", r.HeaderGet "X-Real-IP"].find?
          (fun v => decide (v ≠ ""))).getD r.RemoteAddr) ∧
    (r.HeaderGet "X-Forwarded-For" ≠ "" →
        getRealClientIP r = r.HeaderGet "X-Forwarded-For") ∧
    (r.HeaderGet "X-Forwarded-For" = "" → r.HeaderGet "X-Real-IP" ≠ "" →
        getRealClientIP r = r.HeaderGet "X-Real-IP") ∧
    ((r.Header "X-Forwarded-For" = [] ∨ r.HeaderGet "X-Forwarded-For" = "") →
      (r.Header "X-Real-IP" = [] ∨ r.HeaderGet "X-Real-IP" = "") →
        getRealClientIP r = r.RemoteAddr) := by
  have absent : ∀ key, r.Header key = [] → r.HeaderGet key = "" := by
    intro key hkey
    simp [Request.HeaderGet, hkey]
  refine ⟨?_, ?_, ?_, ?_⟩
  · unfold getRealClientIP
    by_cases h1 : r.HeaderGet "X-Forwarded-For" = ""
    · by_cases h2 : r.HeaderGet "X-Real-IP" = ""
      · simp [h1, h2, List.find?]
      · simp [h1, h2, List.find?]
    · simp [h1, List.find?]
  · intro h1
    simp [getRealClientIP, h1]
  · intro h1 h2
    simp [getRealClientIP, h1, h2]
  · intro h1 h2
    have e1 : r.HeaderGet "X-Forwarded-For" = "" := h1.elim (absent _) id
    have e2 : r.HeaderGet "X-Real-IP" = "" := h2.elim (absent _) id
    simp [getRealClientIP, e1, e2]

/-- C5 at a request carrying both headers and at a request carrying none. -/
theorem getRealClientIP_priority_witness :
    getRealClientIP
        { Method := "GET", Path := "/", RemoteAddr := "10.0.0.5:443",
          Header := fun k =>
            if k = "X-Forwarded-For" then ["1.2.3.4"]
            else if k = "X-Real-IP" then ["9.9.9.9"] else [] } = "1.2.3.4" ∧
    getRealClientIP
        { Method := "GET", Path := "/", RemoteAddr := "10.0.0.5:443",
          Header := fun _ => [] } = "10.0.0.5:443" :=
  ⟨((getRealClientIP_priority _).2.1 (by decide)).trans (by decide),
   (getRealClientIP_priority _).2.2.2 (Or.inl rfl) (Or.inl rfl)⟩

theorem durationString_zero : durationString 0 = "0s" := by decide

/-- C7.  When the wrapped handler leaves the request as it found it, the captured status is
404 and the elapsed time is zero, the message `ZapLogger` builds is the very message
`NotFoundHandler` builds for that request: the yellow token `404`, the coloured method, the
client address and the path in their columns, `0s` in the duration column, the user-agent
class. -/
theorem NotFoundHandler_logMsg_eq_ZapLogger (next : HandlerFunc) (r : Request)
    (hreq : (next r).1 = r)
    (hstatus :
      (loggedResponseWriter.run { ResponseWriter := [], status := 0 } (next r).2).status = 404) :
    (NotFoundHandler r).logMsg = (ZapLogger next r 0).logMsg ∧
    (ZapLogger next r 0).logMsg =
      "| " ++ "\x1b[33m404\x1b[0m" ++ " | " ++ colorMethod r.Method ++ " | " ++
        fmtSLeft 15 (getRealClientIP r) ++ " | " ++ fmtSLeft 20 r.Path ++ " | " ++
        "0s          " ++ " | " ++ simplifyUA r.UserAgent := by
  have hcolor : colorStatus 404 = "\x1b[33m404\x1b[0m" := by decide
  have hcost : fmtSLeft 12 "0s" = "0s          " := by decide
  constructor
  · simp only [NotFoundHandler, ZapLogger, hreq, hstatus, StatusNotFound, durationString_zero]
  · simp only [ZapLogger, hreq, hstatus, durationString_zero, hcolor, hcost]

/-- C7 at a request for `/missing`, the wrapped handler answering 404 itself. -/
theorem NotFoundHandler_logMsg_eq_ZapLogger_witness :
    (NotFoundHandler
        { Method := "GET", Path := "/missing", RemoteAddr := "10.0.0.5:443",
          Header := fun _ => [] }).logMsg =
      (ZapLogger (fun r => (r, [WriterCall.WriteHeader 404, WriterCall.Write "Not Found\n"]))
        { Method := "GET", Path := "/missing", RemoteAddr := "10.0.0.5:443",
          Header := fun _ => [] } 0).logMsg :=
  (NotFoundHandler_logMsg_eq_ZapLogger
    (fun r => (r, [WriterCall.WriteHeader 404, WriterCall.Write "Not Found\n"]))
    { Method := "GET", Path := "/missing", RemoteAddr := "10.0.0.5:443", Header := fun _ => [] }
    rfl (by decide)).1

/-- The message of the not-found handler for `GET /missing` from `10.0.0.5:443`. -/
theorem NotFoundHandler_sample :
    (NotFoundHandler
        { Method := "GET", Path := "/missing", RemoteAddr := "10.0.0.5:443",
          Header := fun _ => [] }).logMsg =
      "| \x1b[33m404\x1b[0m | \x1b[36mGET\x1b[0m | 10.0.0.5:443    | /missing             | 0s           | Other" := by
  decide

/-- C8.  `simplifyUA` returns `Chrome` exactly when the text contains "Chrome", `Firefox`
exactly when it contains "Firefox" and not "Chrome", `Safari` exactly when it contains
"Safari" and neither of the other two, and `Other` exactly when it contains none of the
three; so it returns exactly one of the four names, and `Other` on the empty text. -/
theorem simplifyUA_priority (ua : String) :
    (simplifyUA ua = "Chrome" ↔ occursIn "Chrome" ua) ∧
    (simplifyUA ua = "Firefox" ↔ ¬ occursIn "Chrome" ua ∧ occursIn "Firefox" ua) ∧
    (simplifyUA ua = "Safari" ↔
      ¬ occursIn "Chrome" ua ∧ ¬ occursIn "Firefox" ua ∧ occursIn "Safari" ua) ∧
    (simplifyUA ua = "Other" ↔
      ¬ occursIn "Chrome" ua ∧ ¬ occursIn "Firefox" ua ∧ ¬ occursIn "Safari" ua) ∧
    (simplifyUA ua = "Chrome" ∨ simplifyUA ua = "Firefox" ∨ simplifyUA ua = "Safari" ∨
      simplifyUA ua = "Other") ∧
    simplifyUA "" = "Other" := by
  simp only [← stringsContains_iff_occursIn]
  unfold simplifyUA
  by_cases hc : stringsContains ua "Chrome" = true
  · simp [hc]
    decide
  · by_cases hf : stringsContains ua "Firefox" = true
    · simp [hc, hf]
      decide
    · by_cases hs : stringsContains ua "Safari" = true
      · simp [hc, hf, hs]
        decide
      · simp [hc, hf, hs]
        decide

/-- Two user agents as browsers send them: the Chrome one also names Safari. -/
theorem simplifyUA_samples :
    simplifyUA
        "Mozilla/5.0 (X11; Linux x86_64) AppleWebKit/537.36 (KHTML, like Gecko) Chrome/120.0.0.0 Safari/537.36" =
      "Chrome" ∧
    simplifyUA
        "Mozilla/5.0 (Macintosh) AppleWebKit/605.1.15 (KHTML, like Gecko) Version/17.0 Safari/605.1.15" =
      "Safari" := by
  constructor <;> decide

/-- A status between 0 and 999 has at most three decimal digits. -/
theorem length_fmtD_le_three (status : Int) (h0 : 0 ≤ status) (h1 : status ≤ 999) :
    (fmtD status).length ≤ 3 := by
  cases status with
  | ofNat k =>
    have hk : k < 10 ^ 3 := by
      have : (k : Int) ≤ 999 := h1
      omega
    exact Nat.repr_length k 3 (by decide) hk
  | negSucc k => exact absurd h0 (by simp [Int.negSucc_not_nonneg])

/-- C10.  For every integer status, `colorStatus` returns the colour escape of its class
(green for 200-299, cyan for 300-399, yellow for 400-499, red from 500 up, gray below
200), then the status in decimal right-justified to width 3 (blanks first; exactly three
characters when the status is between 0 and 999), then the reset escape. -/
theorem colorStatus_classes (status : Int) :
    (200 ≤ status ∧ status ≤ 299 →
      colorStatus status = "\x1b[32m" ++ fmtDRight 3 status ++ "\x1b[0m") ∧
    (300 ≤ status ∧ status ≤ 399 →
      colorStatus status = "\x1b[36m" ++ fmtDRight 3 status ++ "\x1b[0m") ∧
    (400 ≤ status ∧ status ≤ 499 →
      colorStatus status = "\x1b[33m" ++ fmtDRight 3 status ++ "\x1b[0m") ∧
    (500 ≤ status →
      colorStatus status = "\x1b[31m" ++ fmtDRight 3 status ++ "\x1b[0m") ∧
    (status < 200 →
      colorStatus status = "\x1b[37m" ++ fmtDRight 3 status ++ "\x1b[0m") ∧
    fmtDRight 3 status =
      String.mk (List.replicate (3 - (fmtD status).length) ' ') ++ fmtD status ∧
    (fmtDRight 3 status).length = max 3 (fmtD status).length ∧
    (0 ≤ status ∧ status ≤ 999 → (fmtDRight 3 status).length = 3) := by
  refine ⟨?_, ?_, ?_, ?_, ?_, rfl, length_fmtDRight 3 status, ?_⟩
  · rintro ⟨h1, h2⟩
    have c1 : status ≥ 200 ∧ status < 300 := ⟨h1, by omega⟩
    simp only [colorStatus, if_pos c1]
  · rintro ⟨h1, h2⟩
    have c1 : ¬ (status ≥ 200 ∧ status < 300) := by omega
    have c2 : status ≥ 300 ∧ status < 400 := ⟨h1, by omega⟩
    simp only [colorStatus, if_neg c1, if_pos c2]
  · rintro ⟨h1, h2⟩
    have c1 : ¬ (status ≥ 200 ∧ status < 300) := by omega
    have c2 : ¬ (status ≥ 300 ∧ status < 400) := by omega
    have c3 : status ≥ 400 ∧ status < 500 := ⟨h1, by omega⟩
    simp only [colorStatus, if_neg c1, if_neg c2, if_pos c3]
  · intro h1
    have c1 : ¬ (status ≥ 200 ∧ status < 300) := by omega
    have c2 : ¬ (status ≥ 300 ∧ status < 400) := by omega
    have c3 : ¬ (status ≥ 400 ∧ status < 500) := by omega
    have c4 : status ≥ 500 := h1
    simp only [colorStatus, if_neg c1, if_neg c2, if_neg c3, if_pos c4]
  · intro h1
    have c1 : ¬ (status ≥ 200 ∧ status < 300) := by omega
    have c2 : ¬ (status ≥ 300 ∧ status < 400) := by omega
    have c3 : ¬ (status ≥ 400 ∧ status < 500) := by omega
    have c4 : ¬ (status ≥ 500) := by omega
    simp only [colorStatus, if_neg c1, if_neg c2, if_neg c3, if_neg c4]
  · rintro ⟨h0, h1⟩
    rw [length_fmtDRight]
    have := length_fmtD_le_three status h0 h1
    omega

/-- C10 at one status of each class, and the width of a one-digit status. -/
theorem colorStatus_classes_witness :
    colorStatus 201 = "\x1b[32m201\x1b[0m" ∧ colorStatus 302 = "\x1b[36m302\x1b[0m" ∧
    colorStatus 404 = "\x1b[33m404\x1b[0m" ∧ colorStatus 1000 = "\x1b[31m1000\x1b[0m" ∧
    colorStatus 0 = "\x1b[37m  0\x1b[0m" ∧ colorStatus (-5) = "\x1b[37m -5\x1b[0m" ∧
    (fmtDRight 3 7).length = 3 :=
  ⟨((colorStatus_classes 201).1 (by decide)).trans (by decide),
   ((colorStatus_classes 302).2.1 (by decide)).trans (by decide),
   ((colorStatus_classes 404).2.2.1 (by decide)).trans (by decide),
   ((colorStatus_classes 1000).2.2.2.1 (by decide)).trans (by decide),
   ((colorStatus_classes 0).2.2.2.2.1 (by decide)).trans (by decide),
   ((colorStatus_classes (-5)).2.2.2.2.1 (by decide)).trans (by decide),
   (colorStatus_classes 7).2.2.2.2.2.2.2 (by decide)⟩

end middleware

/-! ## Properties of `strings.Split` and `strings.Join` -/

namespace Go

theorem splitChars_ne_nil (sep : Char) (s : List Char) : splitChars sep s ≠ [] := by
  cases s with
  | nil => simp [splitChars]
  | cons c cs =>
    unfold splitChars
    split
    · simp
    · split <;> simp

/-- No piece of a split holds the separator. -/
theorem not_mem_of_mem_splitChars (sep : Char) (s p : List Char)
    (hp : p ∈ splitChars sep s) : sep ∉ p := by
  induction s generalizing p with
  | nil =>
    simp only [splitChars, List.mem_singleton] at hp
    simp [hp]
  | cons c cs ih =>
    unfold splitChars at hp
    split at hp
    · rcases List.mem_cons.1 hp with h | h
      · simp [h]
      · exact ih p h
    · split at hp
      · simp only [List.mem_singleton] at hp
        subst hp
        simpa using fun h => ‹¬ c = sep› h.symm
      · rename_i q qs hq
        rcases List.mem_cons.1 hp with h | h
        · subst h
          have hq1 : sep ∉ q := ih q (by rw [hq]; exact List.mem_cons_self _ _)
          intro hmem
          rcases List.mem_cons.1 hmem with h1 | h1
          · exact ‹¬ c = sep› h1.symm
          · exact hq1 h1
        · exact ih p (by rw [hq]; exact List.mem_cons_of_mem _ h)

/-- Joining the pieces of a split with the separator gives the text back. -/
theorem stringsJoin_splitChars (sep : Char) (s : List Char) :
    stringsJoin ((splitChars sep s).map String.mk) (String.mk [sep]) = String.mk s := by
  induction s with
  | nil => rfl
  | cons c cs ih =>
    unfold splitChars
    split
    · rename_i hc
      cases hsplit : splitChars sep cs with
      | nil => exact absurd hsplit (splitChars_ne_nil sep cs)
      | cons q qs =>
        rw [hsplit] at ih
        simp only [List.map_cons, stringsJoin] at ih ⊢
        rw [ih]
        apply String.ext
        simp [hc]
    · split
      · rename_i hq
        exact absurd hq (splitChars_ne_nil sep cs)
      · rename_i q qs hq
        rw [hq] at ih
        cases qs with
        | nil =>
          simp only [List.map_cons, List.map_nil, stringsJoin] at ih ⊢
          apply String.ext
          have := congrArg String.data ih
          simp at this
          simp [this]
        | cons q2 qs2 =>
          simp only [List.map_cons, stringsJoin] at ih ⊢
          apply String.ext
          have := congrArg String.data ih
          simp at this
          simp [this]

theorem stringsJoin_stringsSplit (s : String) (sep : Char) :
    stringsJoin (stringsSplit s sep) (String.mk [sep]) = s :=
  stringsJoin_splitChars sep s.data

theorem not_mem_of_mem_stringsSplit (s : String) (sep : Char) (p : String)
    (hp : p ∈ stringsSplit s sep) : sep ∉ p.data := by
  obtain ⟨q, hq, rfl⟩ := List.mem_map.1 hp
  exact not_mem_of_mem_splitChars sep s.data q hq

end Go

/-! ## Properties of package `logger` -/

namespace logger

open Go

/-- The encoder fails exactly on the paths with fewer than two segments. -/
theorem customEncodeCaller_eq_none_iff (File : String) (Line : Int) :
    customEncodeCaller File Line = none ↔ (stringsSplit File '/').length < 2 := by
  unfold customEncodeCaller sliceFrom
  constructor
  · intro h
    by_contra hlen
    have hcond : ¬ (((stringsSplit File '/').length : Int) - 2 < 0 ∨
        ((stringsSplit File '/').length : Int) < ((stringsSplit File '/').length : Int) - 2) := by
      omega
    simp only [if_neg hcond] at h
    cases h
  · intro hlen
    have hcond : ((stringsSplit File '/').length : Int) - 2 < 0 ∨
        ((stringsSplit File '/').length : Int) < ((stringsSplit File '/').length : Int) - 2 := by
      omega
    simp only [if_pos hcond]

/-- C3 (the code departs from the claim).  On every path with fewer than two segments the
slice expression `fileParts[len(fileParts)-2:]` has a negative low bound, so the encoder
panics and appends nothing; `main.go` and the empty path are such paths. -/
theorem customEncodeCaller_short_path_panics :
    (∀ (File : String) (Line : Int), (stringsSplit File '/').length < 2 →
      customEncodeCaller File Line = none) ∧
    stringsSplit "main.go" '/' = ["main.go"] ∧ customEncodeCaller "main.go" 42 = none ∧
    stringsSplit "" '/' = [""] ∧ customEncodeCaller "" 0 = none := by
  refine ⟨?_, ?_, ?_, ?_, ?_⟩
  · intro File Line hshort
    exact (customEncodeCaller_eq_none_iff File Line).2 hshort
  · decide
  · decide
  · decide
  · decide

/-- C9.  For every path with at least two segments and every line number, the encoder
appends `<second-to-last segment>/<last segment>:<line>` followed by blanks up to width
35; a text of 35 characters or more is appended whole. The segments are the pieces of the
path between its slashes: none holds a slash, and joined by slashes they give the path. -/
theorem customEncodeCaller_last_two_segments (File : String) (Line : Int)
    (h : 2 ≤ (stringsSplit File '/').length) :
    ∃ (front : List String) (dir base : String),
      stringsSplit File '/' = front ++ [dir, base] ∧
      '/' ∉ dir.data ∧ '/' ∉ base.data ∧
      stringsJoin (front ++ [dir, base]) "/" = File ∧
      customEncodeCaller File Line =
        some ((dir ++ "/" ++ base ++ ":" ++ fmtD Line) ++
          String.mk (List.replicate (35 - (dir ++ "/" ++ base ++ ":" ++ fmtD Line).length) ' ')) ∧
      (35 ≤ (dir ++ "/" ++ base ++ ":" ++ fmtD Line).length →
        customEncodeCaller File Line = some (dir ++ "/" ++ base ++ ":" ++ fmtD Line)) := by
  obtain ⟨front, lastTwo, hsplit, hlen⟩ :
      ∃ front lastTwo, stringsSplit File '/' = front ++ lastTwo ∧ lastTwo.length = 2 := by
    refine ⟨(stringsSplit File '/').take ((stringsSplit File '/').length - 2),
      (stringsSplit File '/').drop ((stringsSplit File '/').length - 2),
      (List.take_append_drop _ _).symm, ?_⟩
    rw [List.length_drop]
    omega
  obtain ⟨dir, base, rfl⟩ : ∃ dir base, lastTwo = [dir, base] := by
    match lastTwo, hlen with
    | [a, b], _ => exact ⟨a, b, rfl⟩
  have hdrop : (stringsSplit File '/').drop ((stringsSplit File '/').length - 2) = [dir, base] := by
    rw [hsplit]
    simp
  have hvalue : customEncodeCaller File Line =
      some (fmtSLeft 35 (dir ++ "/" ++ base ++ ":" ++ fmtD Line)) := by
    unfold customEncodeCaller sliceFrom
    have hcond : ¬ (((stringsSplit File '/').length : Int) - 2 < 0 ∨
        ((stringsSplit File '/').length : Int) < ((stringsSplit File '/').length : Int) - 2) := by
      omega
    have htoNat : (((stringsSplit File '/').length : Int) - 2).toNat =
        (stringsSplit File '/').length - 2 := by omega
    simp only [if_neg hcond, htoNat, hdrop, stringsJoin]
  refine ⟨front, dir, base, hsplit, ?_, ?_, ?_, ?_, ?_⟩
  · exact not_mem_of_mem_stringsSplit File '/' dir (by rw [hsplit]; simp)
  · exact not_mem_of_mem_stringsSplit File '/' base (by rw [hsplit]; simp)
  · rw [← hsplit]
    exact stringsJoin_stringsSplit File '/'
  · rw [hvalue, fmtSLeft, padding]
  · intro hwide
    rw [hvalue, fmtSLeft_of_le 35 _ hwide]

/-- C9 at the path of `service_context.go`, line 20. -/
theorem customEncodeCaller_last_two_segments_witness :
    ∃ (front : List String) (dir base : String),
      stringsSplit "/root/deep/internal/svc/service_context.go" '/' = front ++ [dir, base] ∧
      '/' ∉ dir.data ∧ '/' ∉ base.data ∧
      stringsJoin (front ++ [dir, base]) "/" = "/root/deep/internal/svc/service_context.go" ∧
      customEncodeCaller "/root/deep/internal/svc/service_context.go" 20 =
        some ((dir ++ "/" ++ base ++ ":" ++ fmtD 20) ++
          String.mk (List.replicate (35 - (dir ++ "/" ++ base ++ ":" ++ fmtD 20).length) ' ')) ∧
      (35 ≤ (dir ++ "/" ++ base ++ ":" ++ fmtD 20).length →
        customEncodeCaller "/root/deep/internal/svc/service_context.go" 20 =
          some (dir ++ "/" ++ base ++ ":" ++ fmtD 20)) :=
  customEncodeCaller_last_two_segments "/root/deep/internal/svc/service_context.go" 20
    (by decide)

/-- Two sample runs of the caller encoder: a short token is padded to 35 characters, a
token of 42 characters is appended whole. -/
theorem customEncodeCaller_samples :
    customEncodeCaller "/root/deep/internal/svc/service_context.go" 20 =
      some "svc/service_context.go:20          " ∧
    customEncodeCaller "/root/deep/internal/middleware/request_logger_adapter.go" 12345 =
      some "middleware/request_logger_adapter.go:12345" := by
  constructor <;> decide

/-- C4 (the claim as stated fails).  At the level `DPanicLevel` the token is white, and
its visible part is the six characters `DPANIC`: no five-character text fits between the
colour escape and the reset escape. -/
theorem customLevelEncoder_dpanic_six_wide :
    customLevelEncoder zapcore.DPanicLevel = "\x1b[37mDPANIC\x1b[0m" ∧
    ¬ ∃ visible : String, visible.length = 5 ∧
        customLevelEncoder zapcore.DPanicLevel = "\x1b[37m" ++ visible ++ "\x1b[0m" := by
  have hval : customLevelEncoder zapcore.DPanicLevel = "\x1b[37mDPANIC\x1b[0m" := by decide
  refine ⟨hval, ?_⟩
  rintro ⟨visible, hlen, heq⟩
  rw [hval] at heq
  have hlens := congrArg String.length heq
  simp only [String.length_append, hlen] at hlens
  revert hlens
  decide

/-- C4 (amended).  For every level value the token is the colour escape of the level
(debug blue, info green, warn yellow, error red, fatal magenta, any other value white),
then the capitalised level name followed by blanks up to width 5, then the reset escape.
The visible part has exactly 5 characters for debug, info, warn, error, panic and fatal;
for dpanic and for a value that names no level it is the whole name, longer than 5
characters, with no blank added and nothing cut. -/
theorem customLevelEncoder_token (level : Int) :
    customLevelEncoder level =
      (if level = -1 then "\x1b[34m" else if level = 0 then "\x1b[32m"
        else if level = 1 then "\x1b[33m" else if level = 2 then "\x1b[31m"
        else if level = 5 then "\x1b[35m" else "\x1b[37m") ++
      (zapcore.CapitalString level ++
        String.mk (List.replicate (5 - (zapcore.CapitalString level).length) ' ')) ++
      "\x1b[0m" ∧
    (level = -1 → customLevelEncoder level = "\x1b[34mDEBUG\x1b[0m") ∧
    (level = 0 → customLevelEncoder level = "\x1b[32mINFO \x1b[0m") ∧
    (level = 1 → customLevelEncoder level = "\x1b[33mWARN \x1b[0m") ∧
    (level = 2 → customLevelEncoder level = "\x1b[31mERROR\x1b[0m") ∧
    (level = 4 → customLevelEncoder level = "\x1b[37mPANIC\x1b[0m") ∧
    (level = 5 → customLevelEncoder level = "\x1b[35mFATAL\x1b[0m") ∧
    (level < -1 ∨ level = 3 ∨ 5 < level →
      5 < (zapcore.CapitalString level).length ∧
      customLevelEncoder level = "\x1b[37m" ++ zapcore.CapitalString level ++ "\x1b[0m") := by
  refine ⟨rfl, ?_, ?_, ?_, ?_, ?_, ?_, ?_⟩
  · rintro rfl; decide
  · rintro rfl; decide
  · rintro rfl; decide
  · rintro rfl; decide
  · rintro rfl; decide
  · rintro rfl; decide
  · intro hlevel
    by_cases h3 : level = 3
    · subst h3
      constructor <;> decide
    · have n1 : ¬ level = -1 := by omega
      have n2 : ¬ level = 0 := by omega
      have n3 : ¬ level = 1 := by omega
      have n4 : ¬ level = 2 := by omega
      have n5 : ¬ level = 4 := by omega
      have n6 : ¬ level = 5 := by omega
      have hname : zapcore.CapitalString level = "LEVEL(" ++ fmtD level ++ ")" := by
        simp only [zapcore.CapitalString, zapcore.DebugLevel, zapcore.InfoLevel,
          zapcore.WarnLevel, zapcore.ErrorLevel, zapcore.DPanicLevel, zapcore.PanicLevel,
          zapcore.FatalLevel, if_neg n1, if_neg n2, if_neg n3, if_neg n4, if_neg h3, if_neg n5,
          if_neg n6]
      have hwide : 5 < (zapcore.CapitalString level).length := by
        rw [hname]
        simp only [String.length_append]
        have : ("LEVEL(" : String).length = 6 := by decide
        omega
      refine ⟨hwide, ?_⟩
      have hcolor : customLevelEncoder level =
          "\x1b[37m" ++ fmtSLeft 5 (zapcore.CapitalString level) ++ "\x1b[0m" := by
        simp only [customLevelEncoder, zapcore.DebugLevel, zapcore.InfoLevel,
          zapcore.WarnLevel, zapcore.ErrorLevel, zapcore.FatalLevel, if_neg n1, if_neg n2,
          if_neg n3, if_neg n4, if_neg n6]
      rw [hcolor, fmtSLeft_of_le 5 _ (Nat.le_of_lt hwide)]

/-- C4 (amended) at the levels info and debug and at the unnamed value 7. -/
theorem customLevelEncoder_token_witness :
    customLevelEncoder 0 = "\x1b[32mINFO \x1b[0m" ∧
    customLevelEncoder (-1) = "\x1b[34mDEBUG\x1b[0m" ∧
    (5 < (zapcore.CapitalString 7).length ∧
      customLevelEncoder 7 = "\x1b[37m" ++ zapcore.CapitalString 7 ++ "\x1b[0m") :=
  ⟨(customLevelEncoder_token 0).2.2.1 rfl, (customLevelEncoder_token (-1)).2.1 rfl,
   (customLevelEncoder_token 7).2.2.2.2.2.2.2 (by decide)⟩

/-- The loop of `joinMessageWithFields`, from any message built so far. -/
theorem foldl_fields (fields : List LogField) (acc : String) :
    fields.foldl
      (fun msg field =>
        if field.Key = "duration" ∨ field.Key = "trace" ∨ field.Key = "span" then
          msg ++ (" " ++ fmtSLeftAny 13 field.Value)
        else msg)
      acc =
    acc ++ String.join
      ((fields.filter retained).map (fun f => " " ++ fmtSLeftAny 13 f.Value)) := by
  induction fields generalizing acc with
  | nil => simp [String.join]
  | cons f fs ih =>
    rw [List.foldl_cons, ih]
    by_cases hk : f.Key = "duration" ∨ f.Key = "trace" ∨ f.Key = "span"
    · rw [if_pos hk, List.filter_cons_of_pos (by simpa [retained] using hk)]
      apply String.ext
      simp [String.join_eq]
    · rw [if_neg hk, List.filter_cons_of_neg (by simpa [retained] using hk)]

/-- The result of `joinMessageWithFields` on any fields: the message, then one blank
and the `%-13s` form of the value for each retained field, in order. -/
theorem joinMessageWithFields_eq (msg : String) (fields : List LogField) :
    joinMessageWithFields msg fields =
      msg ++ String.join
        ((fields.filter retained).map (fun f => " " ++ fmtSLeftAny 13 f.Value)) := by
  unfold joinMessageWithFields
  split
  · rename_i hlen
    have hnil : fields = [] := List.length_eq_zero.1 hlen
    subst hnil
    simp [String.join]
  · exact foldl_fields fields msg

/-- The retained fields whose values are all text, with the texts they hold. -/
theorem texts_of_retained (fields : List LogField)
    (htext : ∀ f ∈ fields, retained f = true → ∃ s, f.Value = Value.text s) :
    ∃ texts : List String,
      (fields.filter retained).map LogField.Value = texts.map Value.text := by
  induction fields with
  | nil => exact ⟨[], rfl⟩
  | cons f fs ih =>
    obtain ⟨texts, htexts⟩ := ih (fun g hg => htext g (List.mem_cons_of_mem _ hg))
    by_cases hk : retained f = true
    · obtain ⟨s, hs⟩ := htext f (List.mem_cons_self _ _) hk
      refine ⟨s :: texts, ?_⟩
      rw [List.filter_cons_of_pos hk]
      simp [hs, htexts]
    · refine ⟨texts, ?_⟩
      rw [List.filter_cons_of_neg hk]
      exact htexts

/-- C6 (the claim as stated fails).  For the field `duration` holding the integer 5 the
directive `%-13s` takes its bad-verb path: the result is the message, a blank and
`%!s(int=5            )`, not the message, a blank and `5` padded to width 13. -/
theorem joinMessageWithFields_int_value_bad_verb :
    joinMessageWithFields "m" [⟨"duration", Value.int 5⟩] = "m %!s(int=5            )" ∧
    joinMessageWithFields "m" [⟨"duration", Value.int 5⟩] ≠ "m 5            " := by
  constructor <;> decide

/-- C6 (amended).  For every message and every list of log fields in which each field
keyed `duration`, `trace` or `span` holds a text value, `joinMessageWithFields` returns
the message followed, for each such field in the order of the list, by one blank and the
value of the field followed by blanks up to width 13.  Whatever their values, the fields
with another key add nothing: dropping them from the list leaves the result unchanged,
and the result only depends on the retained fields.  With no field the message comes
back unchanged. -/
theorem joinMessageWithFields_filtered (msg : String) (fields : List LogField) :
    ((∀ f ∈ fields, retained f = true → ∃ s, f.Value = Value.text s) →
      ∃ texts : List String,
        (fields.filter retained).map LogField.Value = texts.map Value.text ∧
        joinMessageWithFields msg fields =
          msg ++ String.join
            (texts.map (fun s => " " ++ (s ++ String.mk (List.replicate (13 - s.length) ' '))))) ∧
    joinMessageWithFields msg fields = joinMessageWithFields msg (fields.filter retained) ∧
    (∀ f, retained f = true ↔ (f.Key = "duration" ∨ f.Key = "trace" ∨ f.Key = "span")) ∧
    joinMessageWithFields msg [] = msg := by
  refine ⟨?_, ?_, ?_, rfl⟩
  · intro htext
    obtain ⟨texts, htexts⟩ := texts_of_retained fields htext
    refine ⟨texts, htexts, ?_⟩
    rw [joinMessageWithFields_eq]
    have hmap : (fields.filter retained).map (fun f => " " ++ fmtSLeftAny 13 f.Value) =
        ((fields.filter retained).map LogField.Value).map
          (fun v => " " ++ fmtSLeftAny 13 v) := by
      rw [List.map_map]
      rfl
    rw [hmap, htexts, List.map_map]
    rfl
  · rw [joinMessageWithFields_eq, joinMessageWithFields_eq, List.filter_filter]
    simp
  · intro f
    simp [retained]

/-- C6 (amended) at a call carrying a duration, a caller and a trace identifier. -/
theorem joinMessageWithFields_filtered_witness :
    ∃ texts : List String,
      (([⟨"duration", Value.text "1.2ms"⟩, ⟨"caller", Value.int 12⟩,
          ⟨"trace", Value.text "4bf92f3577b34da6"⟩] : List LogField).filter retained).map
        LogField.Value = texts.map Value.text ∧
      joinMessageWithFields "GET /ping"
          [⟨"duration", Value.text "1.2ms"⟩, ⟨"caller", Value.int 12⟩,
            ⟨"trace", Value.text "4bf92f3577b34da6"⟩] =
        "GET /ping" ++ String.join
          (texts.map (fun s => " " ++ (s ++ String.mk (List.replicate (13 - s.length) ' ')))) :=
  (joinMessageWithFields_filtered "GET /ping"
    [⟨"duration", Value.text "1.2ms"⟩, ⟨"caller", Value.int 12⟩,
      ⟨"trace", Value.text "4bf92f3577b34da6"⟩]).1
    (by
      intro f hf hk
      simp only [List.mem_cons, List.mem_singleton, List.not_mem_nil, or_false] at hf
      rcases hf with rfl | rfl | rfl
      · exact ⟨"1.2ms", rfl⟩
      · exact absurd hk (by decide)
      · exact ⟨"4bf92f3577b34da6", rfl⟩)

/-- Sample runs of the field filter: text values, a boolean and the nil interface. -/
theorem joinMessageWithFields_sample :
    joinMessageWithFields "GET /ping"
        [⟨"duration", Value.text "1.2ms"⟩, ⟨"caller", Value.int 12⟩,
          ⟨"trace", Value.text "4bf92f3577b34da6"⟩] =
      "GET /ping 1.2ms         4bf92f3577b34da6" ∧
    joinMessageWithFields "m" [⟨"span", Value.bool true⟩] = "m %!s(bool=true         )" ∧
    joinMessageWithFields "m" [⟨"span", Value.nil⟩] = "m %!s(<nil>)" := by
  refine ⟨?_, ?_, ?_⟩ <;> decide

end logger
